import Mathlib

/-
A shallow embedding of the bevy_gearbox hierarchical statechart core
(src/lib.rs and src/transitions.rs) together with theorems about its
transition semantics.

Entities are modelled as natural numbers.  Per-entity components become
fields of `Chart` (static topology: StateChildOf, StateChildren, Parallel,
InitialState, History, Transitions, Target, EdgeKind, Guards, After,
EventEdge, AlwaysEdge, Source, DeferEvent presence) or of the dynamic
records `MachState` (the StateMachine component plus HistoryState
components) and `DispState` (Active markers, DeferEvent buffers,
EdgeTimer and PendingEvent components, and the list of Transition
triggers emitted so far).  Bevy `HashSet`s are modelled as lists with
set-like insertion; ancestor walks use an explicit fuel bound
(`Chart.bound`).  Events of a fixed type `E` are identified by a `Nat`
payload.  Phase-payload mapping (`PhaseEvents`) only emits extra
user-typed events and is omitted; the model corresponds to the `()`
payload instantiation of `transition_observer`.
-/

namespace Gearbox

/-- History component: src/history.rs `History`. -/
inductive HistoryMode where
  | shallow
  | deep
deriving DecidableEq, Repr

/-- src/transitions.rs `EdgeKind` (default External). -/
inductive EdgeKind where
  | external
  | internal
deriving DecidableEq, Repr

/-- Engine boundary notifications: `EnterState`, `ExitState`,
`TransitionActions` (src/lib.rs). -/
inductive Ev where
  | enter (s : Nat)
  | exitState (s : Nat)
  | transitionActions (edge : Nat)
deriving DecidableEq, Repr

/-- Static world contents: the state tree, the edge table and all
immutable per-edge data.  `bound` is the fuel used for ancestor walks
and for the drill-down stack (any value at least the tree height plus
the number of nodes makes the model agree with the source). -/
structure Chart where
  root : Nat
  bound : Nat
  parent : Nat → Option Nat
  children : Nat → List Nat
  isParallel : Nat → Bool
  initialChild : Nat → Option Nat
  history : Nat → Option HistoryMode
  transitions : Nat → List Nat
  edgeTarget : Nat → Option Nat
  edgeKind : Nat → EdgeKind
  edgeGuards : Nat → List String
  edgeAfter : Nat → Option Nat
  edgeListener : Nat → Bool
  edgeAlways : Nat → Bool
  edgeSource : Nat → Option Nat
  hasDefer : Nat → Bool
  edges : List Nat

/-- The `StateMachine` component plus all `HistoryState` components. -/
structure MachState where
  active : List Nat
  activeLeaves : List Nat
  historyState : Nat → Option (List Nat)

/-- `iter_ancestors`: walk the `StateChildOf` chain, fuel-bounded. -/
def ancestorsFuel (c : Chart) : Nat → Nat → List Nat
  | 0, _ => []
  | fuel + 1, s =>
    match c.parent s with
    | none => []
    | some p => p :: ancestorsFuel c fuel p

/-- All strict ancestors of `s`, closest parent first. -/
def iterAncestors (c : Chart) (s : Nat) : List Nat :=
  ancestorsFuel c c.bound s

/-- `get_path_to_root` (src/lib.rs): the node followed by its ancestors. -/
def pathToRoot (c : Chart) (s : Nat) : List Nat :=
  s :: iterAncestors c s

/-- HashSet-style insertion at the back of a list. -/
def pushUniq (acc : List Nat) (e : Nat) : List Nat :=
  if e ∈ acc then acc else acc ++ [e]

/-- HashSet-style `extend`. -/
def extendUniq (acc : List Nat) (es : List Nat) : List Nat :=
  es.foldl pushUniq acc

/-- `compute_active_from_leaves` (src/lib.rs): every leaf plus all of its
ancestors. -/
def computeActiveFromLeaves (c : Chart) (leaves : List Nat) : List Nat :=
  leaves.flatMap (fun l => pathToRoot c l)

/-- The LCA depth computation of `transition_observer`: length of the
common suffix of the two root-paths. -/
def lcaDepthOf (exitPath enterPath : List Nat) : Nat :=
  ((exitPath.reverse.zip enterPath.reverse).takeWhile (fun p => p.1 == p.2)).length

/-- The leaf filter used by `transition_observer`: the leaf is the source
itself or has it among its ancestors. -/
def isDescOrSelf (c : Chart) (source leaf : Nat) : Bool :=
  leaf == source || (iterAncestors c leaf).contains source

/-- `&path[..=pos]` for the first position of `s`, empty when `s` is not
on the path. -/
def sliceUptoIncl (path : List Nat) (s : Nat) : List Nat :=
  if s ∈ path then path.takeWhile (fun e => e != s) ++ [s] else []

/-- Shallow-history helper: walking up from `leaf`, the immediate child of
`target` on the path (the `prev` variable of the Rust loop). -/
def shallowChildGo (target : Nat) : Nat → List Nat → Option Nat
  | _, [] => none
  | prev, a :: rest => if a == target then some prev else shallowChildGo target a rest

/-- The immediate child of `target` on the ancestor path of `leaf`. -/
def shallowChildOf (c : Chart) (leaf target : Nat) : Option Nat :=
  shallowChildGo target leaf (iterAncestors c leaf)

/-- Shallow snapshot saved when exiting `entity` (src/lib.rs, exit phase). -/
def shallowSnapshot (c : Chart) (activeLeaves : List Nat) (entity : Nat) : List Nat :=
  activeLeaves.foldl
    (fun sv leaf =>
      match shallowChildOf c leaf entity with
      | some child => pushUniq sv child
      | none => sv) []

/-- Deep snapshot saved when exiting `entity`: every active leaf that is
the node itself or one of its descendants. -/
def deepSnapshot (c : Chart) (activeLeaves : List Nat) (entity : Nat) : List Nat :=
  activeLeaves.filter (fun l => l == entity || (iterAncestors c l).contains entity)

/-- Exit phase of `transition_observer`: for each exited state in order,
store a history snapshot when the state has a `History` component, then
fire `ExitState`. -/
def applyExitPhase (c : Chart) (activeLeaves : List Nat)
    (hist : Nat → Option (List Nat)) : List Nat → ((Nat → Option (List Nat)) × List Ev)
  | [] => (hist, [])
  | e :: rest =>
    let hist1 : Nat → Option (List Nat) :=
      match c.history e with
      | some HistoryMode.shallow =>
          fun n => if n = e then some (shallowSnapshot c activeLeaves e) else hist n
      | some HistoryMode.deep =>
          fun n => if n = e then some (deepSnapshot c activeLeaves e) else hist n
      | none => hist
    let r := applyExitPhase c activeLeaves hist1 rest
    (r.1, Ev.exitState e :: r.2)

/-- Deep-history branch of `get_all_leaf_states`: for every saved leaf,
enter the full path below the history node top-down and record the saved
leaf, drilling no further. -/
def deepRestore (c : Chart) (entity : Nat) :
    List Nat → List Nat → List Ev → (List Nat × List Ev)
  | [], leaves, evs => (leaves, evs)
  | s :: rest, leaves, evs =>
    let path := s :: (iterAncestors c s).takeWhile (fun a => a != entity)
    deepRestore c entity rest (pushUniq leaves s) (evs ++ path.reverse.map Ev.enter)

/-- `get_all_leaf_states` (src/lib.rs): iterative, stack-based drill-down.
History (shallow or deep) takes precedence, then parallel fan-out, then
`InitialState`, otherwise the node is a leaf.  `EnterState` events fired
while drilling are accumulated in order. -/
def getAllLeafStates (c : Chart) (hist : Nat → Option (List Nat)) :
    Nat → List Nat → List Nat → List Ev → (List Nat × List Ev)
  | 0, _, leaves, evs => (leaves, evs)
  | _ + 1, [], leaves, evs => (leaves, evs)
  | fuel + 1, entity :: stack, leaves, evs =>
    match c.history entity, hist entity with
    | some HistoryMode.shallow, some saved =>
        getAllLeafStates c hist fuel (saved.foldl (fun st s => s :: st) stack) leaves
          (evs ++ saved.map Ev.enter)
    | some HistoryMode.deep, some saved =>
        let r := deepRestore c entity saved leaves evs
        getAllLeafStates c hist fuel stack r.1 r.2
    | _, _ =>
        if c.isParallel entity then
          match c.children entity with
          | [] => getAllLeafStates c hist fuel stack (pushUniq leaves entity) evs
          | kids =>
              getAllLeafStates c hist fuel (kids.foldl (fun st s => s :: st) stack) leaves
                (evs ++ kids.map Ev.enter)
        else
          match c.initialChild entity with
          | some ini =>
              let path := ini :: (iterAncestors c ini).takeWhile (fun a => a != entity)
              getAllLeafStates c hist fuel (ini :: stack) leaves
                (evs ++ path.reverse.map Ev.enter)
          | none => getAllLeafStates c hist fuel stack (pushUniq leaves entity) evs

/-- Parallel-source exit set: every active leaf under the parallel source,
with its path up to and including the source, deduplicated in order. -/
def parallelOrderedExits (c : Chart) (activeLeaves : List Nat) (source : Nat) : List Nat :=
  activeLeaves.foldl
    (fun acc leaf =>
      if isDescOrSelf c source leaf then
        extendUniq acc (sliceUptoIncl (pathToRoot c leaf) source)
      else acc) []

/-- Non-parallel-source exit computation: walk each descendant leaf up to
its own LCA with the target path (with the external self-transition
adjustment) and track the minimum LCA depth. -/
def nonParallelExits (c : Chart) (enterPath : List Nat) (newSuper source : Nat)
    (isInternal : Bool) : List Nat → List Nat → Option Nat → (List Nat × Nat)
  | [], exits, minLca => (exits, minLca.getD 0)
  | leaf :: rest, exits, minLca =>
    let exitPath := pathToRoot c leaf
    let d0 := lcaDepthOf exitPath enterPath
    let lcaEntity : Option Nat :=
      if 0 < d0 then some (exitPath.getD (exitPath.length - d0) 0) else none
    let d :=
      if isInternal then d0
      else if newSuper == leaf then d0 - 1
      else if lcaEntity == some source then d0 - 1
      else d0
    let minLca' : Option Nat :=
      some (match minLca with | some m => Nat.min m d | none => d)
    nonParallelExits c enterPath newSuper source isInternal rest
      (extendUniq exits (exitPath.take (exitPath.length - d))) minLca'

/-- The exit/entry computation of `transition_observer` on a running
machine: `none` means the early silent-no-op return (non-parallel source
with no active descendant leaf). -/
def computeExitEnter (c : Chart) (activeLeaves : List Nat) (source newSuper : Nat)
    (isInternal : Bool) : Option (List Nat × List Nat) :=
  if c.isParallel source then
    let exits := parallelOrderedExits c activeLeaves source
    let exitPathFromSource := pathToRoot c source
    let enterPath := pathToRoot c newSuper
    let d0 := lcaDepthOf exitPathFromSource enterPath
    let lcaEntity : Option Nat :=
      if 0 < d0 then
        some (exitPathFromSource.getD (exitPathFromSource.length - d0) 0)
      else none
    let d := if isInternal then d0 else if lcaEntity == some source then d0 - 1 else d0
    some (exits, enterPath.take (enterPath.length - d))
  else
    let descLeaves := activeLeaves.filter (isDescOrSelf c source)
    if descLeaves.isEmpty then none
    else
      let enterPath := pathToRoot c newSuper
      let r := nonParallelExits c enterPath newSuper source isInternal descLeaves [] none
      some (r.1, enterPath.take (enterPath.length - r.2))

/-- Common tail of `transition_observer`: record the new leaves and
recompute `active` as the ancestor closure of `active_leaves`. -/
def finishTransition (c : Chart) (hist : Nat → Option (List Nat)) (leaves : List Nat)
    (evs : List Ev) : MachState × List Ev :=
  ({ active := computeActiveFromLeaves c leaves, activeLeaves := leaves,
     historyState := hist }, evs)

/-- Exit phase, transition-actions phase, entry phase and drill-down of
`transition_observer` once the exit and entry lists are known. -/
def continueTransition (c : Chart) (st : MachState) (edge newSuper : Nat)
    (exits enters : List Nat) : MachState × List Ev :=
  let he := applyExitPhase c st.activeLeaves st.historyState exits
  let leavesAfterExit := st.activeLeaves.filter (fun l => !(exits.contains l))
  let leavesEvs := getAllLeafStates c he.1 c.bound [newSuper] [] []
  finishTransition c he.1 (extendUniq leavesAfterExit leavesEvs.1)
    (he.2 ++ [Ev.transitionActions edge] ++ enters.reverse.map Ev.enter ++ leavesEvs.2)

/-- `transition_observer` (src/lib.rs) as a function from the machine
state and the `Transition` event fields to the new machine state and the
ordered list of `ExitState` / `TransitionActions` / `EnterState`
notifications it fires. -/
def transitionObserver (c : Chart) (st : MachState) (source edge : Nat) :
    MachState × List Ev :=
  let newSuper := (c.edgeTarget edge).getD edge
  if st.activeLeaves.isEmpty then
    let pathToTarget := newSuper :: (iterAncestors c newSuper).takeWhile (fun a => a != c.root)
    let leavesEvs := getAllLeafStates c st.historyState c.bound [newSuper] [] []
    finishTransition c st.historyState (extendUniq st.activeLeaves leavesEvs.1)
      (pathToTarget.reverse.map Ev.enter ++ leavesEvs.2)
  else
    match computeExitEnter c st.activeLeaves source newSuper
        (c.edgeKind edge == EdgeKind.internal) with
    | none => (st, [])
    | some (exits, enters) => continueTransition c st edge newSuper exits enters

/- ## Edge dispatch (src/transitions.rs) -/

/-- Per-tick dynamic dispatch state: `Active` markers, `DeferEvent<E>`
buffers, `EdgeTimer`s as (duration, elapsed) pairs, `PendingEvent<E>`
records, and the ordered list of `Transition` triggers emitted so far,
each recorded as a (source, edge) pair. -/
structure DispState where
  activeFlag : Nat → Bool
  deferred : Nat → Option Nat
  timer : Nat → Option (Nat × Nat)
  pending : Nat → Option Nat
  fired : List (Nat × Nat)

/-- `validate_edge_basic`: the guard set (empty when the component is
absent) must be empty, and the edge must have a `Target`. -/
def validateEdgeBasic (c : Chart) (edge : Nat) : Bool :=
  (c.edgeGuards edge).isEmpty && (c.edgeTarget edge).isSome

/-- Priority scan of `try_fire_first_matching_edge_generic`: the first
listed edge carrying `EventEdge<E>` that passes `validate_edge_basic`. -/
def scanEdges (c : Chart) : List Nat → Option Nat
  | [] => none
  | e :: rest =>
    if c.edgeListener e && validateEdgeBasic c e then some e
    else scanEdges c rest

/-- `try_fire_first_matching_edge_generic`: defer capture when the source
carries an active `DeferEvent<E>`, otherwise fire (or arm the timer of)
the first eligible matching edge.  Returns the updated dispatch state and
whether an edge was selected. -/
def tryFireFirstMatchingEdgeGeneric (c : Chart) (ds : DispState) (source ev : Nat) :
    DispState × Bool :=
  if c.hasDefer source && ds.activeFlag source then
    ({ ds with deferred := fun n => if n = source then some ev else ds.deferred n }, false)
  else
    match scanEdges c (c.transitions source) with
    | none => (ds, false)
    | some e =>
      match c.edgeAfter e with
      | some d =>
          ({ ds with
              timer := fun n => if n = e then some (d, 0) else ds.timer n,
              pending := fun n => if n = e then some ev else ds.pending n }, true)
      | none => ({ ds with fired := ds.fired ++ [(source, e)] }, true)

/-- Loop body of `find_parallel_region_root`: `prev` trails the walk; the
first parallel ancestor stops it.  When no parallel ancestor exists the
original state is returned. -/
def findRegionGo (c : Chart) (orig : Nat) : Nat → List Nat → Nat
  | _, [] => orig
  | prev, a :: rest => if c.isParallel a then prev else findRegionGo c orig a rest

/-- `find_parallel_region_root` (src/transitions.rs). -/
def findParallelRegionRoot (c : Chart) (s : Nat) : Nat :=
  findRegionGo c s s (iterAncestors c s)

/-- `try_fire_first_matching_edge_on_branch`: walk from a leaf up to the
machine root, skipping states already visited by other branches, and stop
at the first state whose scan selects an edge.  Returns the visited set,
the dispatch state, and whether the branch fired. -/
def tryFireOnBranch (c : Chart) (ev root : Nat) :
    Nat → Nat → List Nat → DispState → (List Nat × DispState × Bool)
  | 0, _, visited, ds => (visited, ds, false)
  | fuel + 1, state, visited, ds =>
    if state ∈ visited then
      if state = root then (visited, ds, false)
      else
        match c.parent state with
        | some p => tryFireOnBranch c ev root fuel p visited ds
        | none => (visited, ds, false)
    else
      let visited' := visited ++ [state]
      let r := tryFireFirstMatchingEdgeGeneric c ds state ev
      if r.2 then (visited', r.1, true)
      else if state = root then (visited', r.1, false)
      else
        match c.parent state with
        | some p => tryFireOnBranch c ev root fuel p visited' r.1
        | none => (visited', r.1, false)

/-- Leaves-first loop of `edge_event_listener` for events targeted at a
machine root: one branch attempt per active leaf, at most one firing per
parallel region, with a shared visited set. -/
def processLeaves (c : Chart) (ev root : Nat) :
    List Nat → List Nat → List Nat → DispState → (List Nat × List Nat × DispState)
  | [], visited, regs, ds => (visited, regs, ds)
  | leaf :: rest, visited, regs, ds =>
    let region := findParallelRegionRoot c leaf
    if region ∈ regs then processLeaves c ev root rest visited regs ds
    else
      let r := tryFireOnBranch c ev root c.bound leaf visited ds
      let regs' := if r.2.2 then regs ++ [region] else regs
      processLeaves c ev root rest r.1 regs' r.2.1

/-- `edge_event_listener` when the event target carries a `StateMachine`:
try every active branch, then fall back to root-level edges when no
region consumed the event. -/
def edgeEventListenerRoot (c : Chart) (activeLeaves : List Nat) (ds : DispState)
    (ev : Nat) : DispState :=
  let r := processLeaves c ev c.root activeLeaves [] [] ds
  if r.2.1.isEmpty then (tryFireFirstMatchingEdgeGeneric c r.2.2 c.root ev).1
  else r.2.2

/-- Priority scan of `always_edge_listener`: first listed `AlwaysEdge`
without an `After` component that passes `validate_edge_basic`. -/
def alwaysScan (c : Chart) : List Nat → Option Nat
  | [] => none
  | e :: rest =>
    if !c.edgeAlways e then alwaysScan c rest
    else if (c.edgeAfter e).isSome then alwaysScan c rest
    else if !validateEdgeBasic c e then alwaysScan c rest
    else some e

/-- `always_edge_listener` on `EnterState(source)`. -/
def alwaysEdgeListener (c : Chart) (ds : DispState) (source : Nat) : DispState :=
  match alwaysScan c (c.transitions source) with
  | some e => { ds with fired := ds.fired ++ [(source, e)] }
  | none => ds

/-- Body of `check_always_on_guards_changed` for one edge whose `Guards`
component changed this tick (the query also demands `AlwaysEdge` and
`Source`).  The changed edge itself fires (or arms its timer) when its
source is active, its guards now pass, it is still listed on the source
and it has a target. -/
def checkAlwaysOnGuardsChangedEdge (c : Chart) (ds : DispState) (edge : Nat) : DispState :=
  if !c.edgeAlways edge then ds
  else
    match c.edgeSource edge with
    | none => ds
    | some source =>
      if !ds.activeFlag source then ds
      else if !(c.edgeGuards edge).isEmpty then ds
      else if !(c.transitions source).contains edge then ds
      else if !(c.edgeTarget edge).isSome then ds
      else
        match c.edgeAfter edge with
        | some d => { ds with timer := fun n => if n = edge then some (d, 0) else ds.timer n }
        | none => { ds with fired := ds.fired ++ [(source, edge)] }

/-- `check_always_on_guards_changed` over the set of changed edges. -/
def checkAlwaysOnGuardsChanged (c : Chart) (ds : DispState) (changed : List Nat) : DispState :=
  changed.foldl (checkAlwaysOnGuardsChangedEdge c) ds

/-- `replay_deferred_event` on `ExitState`: take the buffered event (at
most once) and re-trigger it. -/
def replayDeferredEvent (c : Chart) (ds : DispState) (exited : Nat) :
    DispState × Option Nat :=
  if c.hasDefer exited then
    match ds.deferred exited with
    | some e =>
        ({ ds with deferred := fun n => if n = exited then none else ds.deferred n }, some e)
    | none => (ds, none)
  else (ds, none)

/-- `cleanup_edge_timer_and_pending`. -/
def clearEdgeTimerAndPending (ds : DispState) (edge : Nat) : DispState :=
  { ds with
      timer := fun n => if n = edge then none else ds.timer n,
      pending := fun n => if n = edge then none else ds.pending n }

/-- Loop body of `cancel_pending_event_on_exit`: clean up an edge that
holds a `PendingEvent<E>`. -/
def cancelStep (acc : DispState) (e : Nat) : DispState :=
  if (acc.pending e).isSome then clearEdgeTimerAndPending acc e else acc

/-- `cancel_pending_event_on_exit`: on `ExitState(source)`, discard the
timer and pending record of every listed edge that holds a pending
event. -/
def cancelPendingEventOnExit (c : Chart) (ds : DispState) (source : Nat) : DispState :=
  (c.transitions source).foldl cancelStep ds

/-- `tick_after_event_timers` body for one edge of the
`(EdgeTimer, PendingEvent<E>)` query (also requiring `EventEdge<E>`):
cancel when the source exited; otherwise tick, and at expiry either
discard (guards blocking or target missing) or fire. -/
def tickAfterEventTimersEdge (c : Chart) (delta : Nat) (ds : DispState) (edge : Nat) :
    DispState :=
  match ds.timer edge, ds.pending edge with
  | some dur, some _ =>
    if !c.edgeListener edge then ds
    else if (c.edgeAfter edge).isNone then ds
    else
      match c.edgeSource edge with
      | none => ds
      | some src =>
        if !ds.activeFlag src then clearEdgeTimerAndPending ds edge
        else
          let el' := dur.2 + delta
          if !(decide (dur.2 < dur.1) && decide (dur.1 ≤ el')) then
            { ds with timer := fun n => if n = edge then some (dur.1, el') else ds.timer n }
          else if !validateEdgeBasic c edge then clearEdgeTimerAndPending ds edge
          else
            { clearEdgeTimerAndPending ds edge with
                fired := ds.fired ++ [(src, edge)] }
  | _, _ => ds

/-- `tick_after_event_timers` over all edges. -/
def tickAfterEventTimers (c : Chart) (ds : DispState) (delta : Nat) : DispState :=
  c.edges.foldl (tickAfterEventTimersEdge c delta) ds

/-- Per-source loop of `tick_after_system` (delayed `AlwaysEdge`s): walk
the edge list in priority order, tick the first due timer, discard it
when invalid and keep scanning, fire the first valid due edge and stop. -/
def tickAfterGo (c : Chart) (delta source : Nat) : List Nat → DispState → DispState
  | [], ds => ds
  | e :: rest, ds =>
    if (c.edgeAfter e).isNone then tickAfterGo c delta source rest ds
    else if !c.edgeAlways e then tickAfterGo c delta source rest ds
    else
      match ds.timer e with
      | none => tickAfterGo c delta source rest ds
      | some dur =>
        let el' := dur.2 + delta
        let ds1 : DispState :=
          { ds with timer := fun n => if n = e then some (dur.1, el') else ds.timer n }
        if !(decide (dur.2 < dur.1) && decide (dur.1 ≤ el')) then
          tickAfterGo c delta source rest ds1
        else if !validateEdgeBasic c e then
          tickAfterGo c delta source rest
            { ds1 with timer := fun n => if n = e then none else ds.timer n }
        else
          { ds1 with
              timer := fun n => if n = e then none else ds.timer n,
              fired := ds.fired ++ [(source, e)] }

/- ## Concrete worlds used by witnesses and counterexamples -/

/-- An empty world: one root, no edges, no components. -/
def baseChart : Chart :=
  { root := 0, bound := 8,
    parent := fun _ => none, children := fun _ => [],
    isParallel := fun _ => false, initialChild := fun _ => none,
    history := fun _ => none, transitions := fun _ => [],
    edgeTarget := fun _ => none, edgeKind := fun _ => EdgeKind.external,
    edgeGuards := fun _ => [], edgeAfter := fun _ => none,
    edgeListener := fun _ => false, edgeAlways := fun _ => false,
    edgeSource := fun _ => none, hasDefer := fun _ => false, edges := [] }

/-- Dispatch state with nothing active, buffered, armed or fired. -/
def baseDisp : DispState :=
  { activeFlag := fun _ => false, deferred := fun _ => none,
    timer := fun _ => none, pending := fun _ => none, fired := [] }

/-- Leaf self-loop world: root 0, leaf state 1; edge 2 is an External
self-edge on 1, edge 3 an Internal self-edge on 1. -/
def chartSelf : Chart :=
  { baseChart with
    parent := fun n => if n = 1 then some 0 else none,
    children := fun n => if n = 0 then [1] else [],
    transitions := fun n => if n = 1 then [2, 3] else [],
    edgeTarget := fun e => if e = 2 ∨ e = 3 then some 1 else none,
    edgeKind := fun e => if e = 3 then EdgeKind.internal else EdgeKind.external,
    edges := [2, 3] }

/-- Machine of `chartSelf` resting on leaf 1. -/
def stSelf : MachState :=
  { active := [0, 1], activeLeaves := [1], historyState := fun _ => none }

/-- Ancestor self-loop world: root 0, composite state 1 with initial
child 4; edge 2 is an External self-edge on 1, edge 3 an Internal one. -/
def chartSelfDeep : Chart :=
  { baseChart with
    parent := fun n => if n = 1 then some 0 else if n = 4 then some 1 else none,
    children := fun n => if n = 0 then [1] else if n = 1 then [4] else [],
    initialChild := fun n => if n = 1 then some 4 else none,
    transitions := fun n => if n = 1 then [2, 3] else [],
    edgeTarget := fun e => if e = 2 ∨ e = 3 then some 1 else none,
    edgeKind := fun e => if e = 3 then EdgeKind.internal else EdgeKind.external,
    edges := [2, 3] }

/-- Machine of `chartSelfDeep` resting on leaf 4. -/
def stSelfDeep : MachState :=
  { active := [0, 1, 4], activeLeaves := [4], historyState := fun _ => none }

/-- Deep-history world (the spec's P5 example): root 0, region 1 with
History=Deep and initial child 2, sibling 3; edge 10 leaves the region
(1 to 3), edge 11 re-enters it (3 to 1). -/
def chartHist : Chart :=
  { baseChart with
    parent := fun n => if n = 1 ∨ n = 3 then some 0 else if n = 2 then some 1 else none,
    children := fun n => if n = 0 then [1, 3] else if n = 1 then [2] else [],
    initialChild := fun n => if n = 1 then some 2 else none,
    history := fun n => if n = 1 then some HistoryMode.deep else none,
    transitions := fun n => if n = 1 then [10] else if n = 3 then [11] else [],
    edgeTarget := fun e => if e = 10 then some 3 else if e = 11 then some 1 else none,
    edges := [10, 11] }

/-- Machine of `chartHist` resting on leaf 2 inside the region. -/
def stHist : MachState :=
  { active := [0, 1, 2], activeLeaves := [2], historyState := fun _ => none }

/-- Parallel no-op counterexample world: root 0 with active leaf 1 and an
inactive Parallel state 2 (regions 3 and 4) plus sibling 5; edge 10 has
the parallel state 2 as source and targets 5. -/
def chartParNoop : Chart :=
  { baseChart with
    parent := fun n => if n = 1 ∨ n = 2 ∨ n = 5 then some 0
      else if n = 3 ∨ n = 4 then some 2 else none,
    children := fun n => if n = 0 then [1, 2, 5] else if n = 2 then [3, 4] else [],
    isParallel := fun n => n = 2,
    transitions := fun n => if n = 2 then [10] else [],
    edgeTarget := fun e => if e = 10 then some 5 else none,
    edgeSource := fun e => if e = 10 then some 2 else none,
    edges := [10] }

/-- Machine of `chartParNoop`: only leaf 1 is active; nothing under the
parallel state 2 is. -/
def stParNoop : MachState :=
  { active := [0, 1], activeLeaves := [1], historyState := fun _ => none }

/-- Priority world (the spec's P2 example): root 0 with initial child 1
and siblings 2, 3; edges 10 (1 to 2) and 11 (1 to 3) both match the same
event, listed in that order on source 1. -/
def chartPrio : Chart :=
  { baseChart with
    parent := fun n => if n = 1 ∨ n = 2 ∨ n = 3 then some 0 else none,
    children := fun n => if n = 0 then [1, 2, 3] else [],
    initialChild := fun n => if n = 0 then some 1 else none,
    transitions := fun n => if n = 1 then [10, 11] else [],
    edgeTarget := fun e => if e = 10 then some 2 else if e = 11 then some 3 else none,
    edgeListener := fun e => e = 10 ∨ e = 11,
    edgeSource := fun e => if e = 10 ∨ e = 11 then some 1 else none,
    edges := [10, 11] }

/-- Machine of `chartPrio` resting on leaf 1. -/
def stPrio : MachState :=
  { active := [0, 1], activeLeaves := [1], historyState := fun _ => none }

/-- Dispatch state of `chartPrio` with states 0 and 1 active. -/
def dsPrio : DispState :=
  { baseDisp with activeFlag := fun n => n = 0 ∨ n = 1 }

/-- Parallel independence world (the spec's P6 example): root 0, Parallel
state 1 with region leaves 2 and 3; edge 10 (source 2, target 4) and
edge 11 (source 3, target 5) both match the event. -/
def chartPar : Chart :=
  { baseChart with
    parent := fun n => if n = 1 then some 0 else if n = 2 ∨ n = 3 then some 1
      else if n = 4 ∨ n = 5 then some 0 else none,
    children := fun n => if n = 0 then [1, 4, 5] else if n = 1 then [2, 3] else [],
    isParallel := fun n => n = 1,
    transitions := fun n => if n = 2 then [10] else if n = 3 then [11] else [],
    edgeTarget := fun e => if e = 10 then some 4 else if e = 11 then some 5 else none,
    edgeListener := fun e => e = 10 ∨ e = 11,
    edgeSource := fun e => if e = 10 then some 2 else if e = 11 then some 3 else none,
    edges := [10, 11] }

/-- Dispatch state of `chartPar` with both region leaves active. -/
def dsPar : DispState :=
  { baseDisp with activeFlag := fun n => n = 0 ∨ n = 1 ∨ n = 2 ∨ n = 3 }

/-- Shared-ancestor world: root 0, composite 1 holding Parallel state 2
with region leaves 3 and 4; only the shared ancestor 1 has a matching
edge 10 (target 5). -/
def chartShared : Chart :=
  { baseChart with
    parent := fun n => if n = 1 ∨ n = 5 then some 0 else if n = 2 then some 1
      else if n = 3 ∨ n = 4 then some 2 else none,
    children := fun n => if n = 0 then [1, 5] else if n = 1 then [2]
      else if n = 2 then [3, 4] else [],
    isParallel := fun n => n = 2,
    transitions := fun n => if n = 1 then [10] else [],
    edgeTarget := fun e => if e = 10 then some 5 else none,
    edgeListener := fun e => e = 10,
    edgeSource := fun e => if e = 10 then some 1 else none,
    edges := [10] }

/-- Dispatch state of `chartShared` with both region leaves active. -/
def dsShared : DispState :=
  { baseDisp with activeFlag := fun n => n = 0 ∨ n = 1 ∨ n = 2 ∨ n = 3 ∨ n = 4 }

/-- Guard-change world: root 0, state 1 with Always-edges 10 (target 2,
unguarded, first in the list) and 11 (target 3, guards just emptied,
second in the list). -/
def chartGuard : Chart :=
  { baseChart with
    parent := fun n => if n = 1 ∨ n = 2 ∨ n = 3 then some 0 else none,
    children := fun n => if n = 0 then [1, 2, 3] else [],
    transitions := fun n => if n = 1 then [10, 11] else [],
    edgeTarget := fun e => if e = 10 then some 2 else if e = 11 then some 3 else none,
    edgeAlways := fun e => e = 10 ∨ e = 11,
    edgeSource := fun e => if e = 10 ∨ e = 11 then some 1 else none,
    edges := [10, 11] }

/-- Dispatch state of `chartGuard` with state 1 active. -/
def dsGuard : DispState :=
  { baseDisp with activeFlag := fun n => n = 0 ∨ n = 1 }

/-- Deferral world: root 0, state 1 carrying `DeferEvent<E>`, with a
matching edge 10 (target 2) so that capture visibly pre-empts the scan. -/
def chartDefer : Chart :=
  { baseChart with
    parent := fun n => if n = 1 ∨ n = 2 then some 0 else none,
    children := fun n => if n = 0 then [1, 2] else [],
    transitions := fun n => if n = 1 then [10] else [],
    edgeTarget := fun e => if e = 10 then some 2 else none,
    edgeListener := fun e => e = 10,
    edgeSource := fun e => if e = 10 then some 1 else none,
    hasDefer := fun n => n = 1,
    edges := [10] }

/-- Dispatch state of `chartDefer` with state 1 active. -/
def dsDefer : DispState :=
  { baseDisp with activeFlag := fun n => n = 0 ∨ n = 1 }

/-- After-timer world: root 0, state 1 with delayed event edge 10
(duration 5, target 2) and a second delayed edge 11 whose guard set is
non-empty (blocking at expiry). -/
def chartAfter : Chart :=
  { baseChart with
    parent := fun n => if n = 1 ∨ n = 2 then some 0 else none,
    children := fun n => if n = 0 then [1, 2] else [],
    transitions := fun n => if n = 1 then [10, 11] else [],
    edgeTarget := fun e => if e = 10 ∨ e = 11 then some 2 else none,
    edgeListener := fun e => e = 10 ∨ e = 11,
    edgeAfter := fun e => if e = 10 ∨ e = 11 then some 5 else none,
    edgeGuards := fun e => if e = 11 then ["blocked"] else [],
    edgeSource := fun e => if e = 10 ∨ e = 11 then some 1 else none,
    edges := [10, 11] }

/-- Dispatch state of `chartAfter` with state 1 active and both delayed
edges armed (duration 5, elapsed 0) holding pending event 7. -/
def dsAfter : DispState :=
  { baseDisp with
    activeFlag := fun n => n = 0 ∨ n = 1,
    timer := fun e => if e = 10 ∨ e = 11 then some (5, 0) else none,
    pending := fun e => if e = 10 ∨ e = 11 then some 7 else none }

/- ## Helper lemmas -/

theorem mem_pushUniq {acc : List Nat} {e x : Nat} :
    x ∈ pushUniq acc e ↔ x ∈ acc ∨ x = e := by
  unfold pushUniq
  split
  · rename_i h
    constructor
    · exact Or.inl
    · rintro (hx | rfl)
      · exact hx
      · exact h
  · simp

theorem mem_extendUniq :
    ∀ {es acc : List Nat} {x : Nat}, x ∈ extendUniq acc es ↔ x ∈ acc ∨ x ∈ es := by
  intro es
  induction es with
  | nil => simp [extendUniq]
  | cons e rest ih =>
      intro acc x
      show x ∈ extendUniq (pushUniq acc e) rest ↔ _
      rw [ih, mem_pushUniq]
      simp only [List.mem_cons]
      tauto

theorem mem_computeActiveFromLeaves {c : Chart} {leaves : List Nat} {x : Nat} :
    x ∈ computeActiveFromLeaves c leaves ↔ ∃ l ∈ leaves, x ∈ pathToRoot c l := by
  simp [computeActiveFromLeaves, List.mem_flatMap]

theorem zip_self_takeWhile_length :
    ∀ l : List Nat, ((l.zip l).takeWhile (fun p => p.1 == p.2)).length = l.length := by
  intro l
  induction l with
  | nil => rfl
  | cons a t ih => simp [List.zip_cons_cons, List.takeWhile_cons, ih]

theorem zip_append_self : ∀ a b : List Nat, (a ++ b).zip a = a.zip a := by
  intro a
  induction a with
  | nil => simp
  | cons x t ih => intro b; simp [List.zip_cons_cons, ih]

theorem lcaDepthOf_self (p : List Nat) : lcaDepthOf p p = p.length := by
  unfold lcaDepthOf
  rw [zip_self_takeWhile_length, List.length_reverse]

theorem lcaDepthOf_append_self (pre p : List Nat) :
    lcaDepthOf (pre ++ p) p = p.length := by
  unfold lcaDepthOf
  rw [List.reverse_append, zip_append_self, zip_self_takeWhile_length, List.length_reverse]

theorem getD_append_length (pre : List Nat) (x d : Nat) (t : List Nat) :
    (pre ++ x :: t).getD pre.length d = x := by
  simp [List.getD_append_right, Nat.sub_self]
  simp [List.getElem_append_right, Nat.sub_self]

theorem take_append_succ :
    ∀ (pre : List Nat) (x : Nat) (t : List Nat),
      (pre ++ x :: t).take (pre.length + 1) = pre ++ [x] := by
  intro pre
  induction pre with
  | nil => intro x t; simp
  | cons a r ih => intro x t; simp [List.take_cons, ih]

theorem applyExitPhase_events (c : Chart) (al : List Nat)
    (hist : Nat → Option (List Nat)) :
    ∀ exits, (applyExitPhase c al hist exits).2 = exits.map Ev.exitState := by
  intro exits
  induction exits generalizing hist with
  | nil => rfl
  | cons e rest ih => simp [applyExitPhase, ih]

theorem getAllLeafStates_nil (c : Chart) (hist : Nat → Option (List Nat))
    (fuel : Nat) (leaves : List Nat) (evs : List Ev) :
    getAllLeafStates c hist fuel [] leaves evs = (leaves, evs) := by
  cases fuel <;> rfl

/-- A node with no history snapshot, no parallel flag and no initial
child is drilled as a leaf. -/
theorem getAllLeafStates_leaf (c : Chart) (hist : Nat → Option (List Nat))
    (fuel : Nat) (s : Nat) (hch : c.history s = none) (hp : c.isParallel s = false)
    (hi : c.initialChild s = none) :
    getAllLeafStates c hist (fuel + 1) [s] [] [] = ([s], []) := by
  unfold getAllLeafStates
  rw [hch]
  cases hist s <;> simp [hp, hi, getAllLeafStates_nil, pushUniq]

/- ## C7: silent no-op for stale sources -/

/-- C7 counterexample: in `chartParNoop` the source 2 of edge 10 is a
Parallel state that is not the ancestor-or-self of any active leaf, yet
the dispatch is not a no-op: `TransitionActions` and `EnterState(5)`
fire and the active leaf set grows, contradicting the claim's
"regardless of whether the source is a parallel node or not". -/
theorem C7_parallel_source_not_noop :
    stParNoop.activeLeaves.filter (isDescOrSelf chartParNoop 2) = [] ∧
    (transitionObserver chartParNoop stParNoop 2 10).2 =
      [Ev.transitionActions 10, Ev.enter 5] ∧
    (transitionObserver chartParNoop stParNoop 2 10).1.activeLeaves = [1, 5] := by
  refine ⟨by decide, by decide, by decide⟩

/-- C7 (amended): for a running machine and a non-parallel source that is
not the ancestor-or-self of any active leaf, `transition_observer` is a
silent no-op — no notification fires and the machine state is returned
unchanged.  (For parallel sources the early return is absent and the
transition-actions and entry phases still run.) -/
theorem C7_stale_source_noop (c : Chart) (st : MachState) (source edge : Nat)
    (hpar : c.isParallel source = false)
    (hstale : st.activeLeaves.filter (isDescOrSelf c source) = [])
    (hrun : st.activeLeaves ≠ []) :
    transitionObserver c st source edge = (st, []) := by
  have hne : st.activeLeaves.isEmpty = false := by
    simpa [List.isEmpty_iff] using hrun
  unfold transitionObserver computeExitEnter
  rw [hne, hpar, hstale]
  simp

/-- C7 witness: state 3 of `chartParNoop` is a non-parallel state not
under any active leaf; dispatching edge 10 from it is a silent no-op. -/
theorem C7_stale_source_noop_witness :
    transitionObserver chartParNoop stParNoop 3 10 = (stParNoop, []) :=
  C7_stale_source_noop chartParNoop stParNoop 3 10 (by decide) (by decide) (by decide)

/- ## C9: guard-changed re-check -/

/-- C9 counterexample: in `chartGuard`, state 1 lists Always-edges
[10, 11] and edge 10 is eligible (first eligible in priority order), but
when edge 11's guard set changes to empty the guard-changed system fires
edge 11 itself, not the first eligible listed edge 10. -/
theorem C9_fires_changed_edge_not_first :
    (checkAlwaysOnGuardsChanged chartGuard dsGuard [11]).fired = [(1, 11)] ∧
    alwaysScan chartGuard (chartGuard.transitions 1) = some 10 ∧
    (1, 10) ∉ (checkAlwaysOnGuardsChanged chartGuard dsGuard [11]).fired := by
  refine ⟨by decide, by decide, by decide⟩

/-- C9 (amended): when an Always-edge's guard set changes while its
source is active, the guards now pass, the edge is still listed on its
source and it has a target (and no delay), the changed edge itself fires;
the source's edge list is not re-scanned for an earlier eligible edge. -/
theorem C9_changed_edge_fires (c : Chart) (ds : DispState) (edge source : Nat)
    (halways : c.edgeAlways edge = true)
    (hsrc : c.edgeSource edge = some source)
    (hact : ds.activeFlag source = true)
    (hguards : c.edgeGuards edge = [])
    (hlisted : (c.transitions source).contains edge = true)
    (htarget : (c.edgeTarget edge).isSome = true)
    (hafter : c.edgeAfter edge = none) :
    (checkAlwaysOnGuardsChangedEdge c ds edge).fired = ds.fired ++ [(source, edge)] := by
  have hmem : edge ∈ c.transitions source := by
    simpa using hlisted
  unfold checkAlwaysOnGuardsChangedEdge
  simp [halways, hsrc, hact, hguards, hlisted, htarget, hafter, hmem]

/-- C9 witness: edge 11 of `chartGuard` satisfies all hypotheses and
fires itself. -/
theorem C9_changed_edge_fires_witness :
    (checkAlwaysOnGuardsChangedEdge chartGuard dsGuard 11).fired = [(1, 11)] :=
  C9_changed_edge_fires chartGuard dsGuard 11 1 (by decide) (by decide) (by decide)
    (by decide) (by decide) (by decide) (by decide)

/- ## C5: event deferral -/

/-- C5: (capture) an event delivered to a state with an active deferral
buffer is stored there — overwriting any previously buffered event of
that type — and no edge is matched, armed or fired; (replay) on exit the
buffered event is taken and re-dispatched exactly once, a second take
yields nothing; (no re-capture) a state whose `Active` marker is gone
never captures, so the replayed event is not re-captured by the exiting
state. -/
theorem C5_deferral :
    (∀ (c : Chart) (ds : DispState) (s ev : Nat),
      c.hasDefer s = true → ds.activeFlag s = true →
      (tryFireFirstMatchingEdgeGeneric c ds s ev).1.deferred s = some ev ∧
      (tryFireFirstMatchingEdgeGeneric c ds s ev).2 = false ∧
      (tryFireFirstMatchingEdgeGeneric c ds s ev).1.fired = ds.fired ∧
      (tryFireFirstMatchingEdgeGeneric c ds s ev).1.timer = ds.timer ∧
      (tryFireFirstMatchingEdgeGeneric c ds s ev).1.pending = ds.pending) ∧
    (∀ (c : Chart) (ds : DispState) (s e : Nat),
      c.hasDefer s = true → ds.deferred s = some e →
      (replayDeferredEvent c ds s).2 = some e ∧
      (replayDeferredEvent c ds s).1.deferred s = none ∧
      (replayDeferredEvent c (replayDeferredEvent c ds s).1 s).2 = none) ∧
    (∀ (c : Chart) (ds : DispState) (s ev : Nat),
      ds.activeFlag s = false →
      (tryFireFirstMatchingEdgeGeneric c ds s ev).1.deferred = ds.deferred) := by
  refine ⟨?_, ?_, ?_⟩
  · intro c ds s ev hdef hact
    unfold tryFireFirstMatchingEdgeGeneric
    simp [hdef, hact]
  · intro c ds s e hdef hbuf
    unfold replayDeferredEvent
    simp [hdef, hbuf]
  · intro c ds s ev hact
    unfold tryFireFirstMatchingEdgeGeneric
    cases hscan : scanEdges c (c.transitions s) with
    | none => simp [hact, hscan]
    | some e => cases hafter : c.edgeAfter e <;> simp [hact, hscan, hafter]

/-- C5 witness: in `chartDefer`, state 1 defers event 9 (although edge 10
matches), the buffer is consumed exactly once on exit, and an inactive
state 1 does not capture. -/
theorem C5_deferral_witness :
    ((tryFireFirstMatchingEdgeGeneric chartDefer dsDefer 1 9).1.deferred 1 = some 9 ∧
      (tryFireFirstMatchingEdgeGeneric chartDefer dsDefer 1 9).2 = false ∧
      (tryFireFirstMatchingEdgeGeneric chartDefer dsDefer 1 9).1.fired = dsDefer.fired ∧
      (tryFireFirstMatchingEdgeGeneric chartDefer dsDefer 1 9).1.timer = dsDefer.timer ∧
      (tryFireFirstMatchingEdgeGeneric chartDefer dsDefer 1 9).1.pending = dsDefer.pending) ∧
    ((replayDeferredEvent chartDefer
        (tryFireFirstMatchingEdgeGeneric chartDefer dsDefer 1 9).1 1).2 = some 9) ∧
    ((tryFireFirstMatchingEdgeGeneric chartDefer baseDisp 1 9).1.deferred =
      baseDisp.deferred) := by
  refine ⟨C5_deferral.1 chartDefer dsDefer 1 9 (by decide) (by decide), ?_, ?_⟩
  · exact (C5_deferral.2.1 chartDefer
      (tryFireFirstMatchingEdgeGeneric chartDefer dsDefer 1 9).1 1 9 (by decide)
      ((C5_deferral.1 chartDefer dsDefer 1 9 (by decide) (by decide)).1)).1
  · exact C5_deferral.2.2 chartDefer baseDisp 1 9 (by decide)

/- ## C10: edges without a target are permanently ineligible -/

theorem scanEdges_ne_no_target (c : Chart) (e : Nat)
    (ht : c.edgeTarget e = none) : ∀ edges, scanEdges c edges ≠ some e := by
  intro edges
  induction edges with
  | nil => simp [scanEdges]
  | cons h rest ih =>
      unfold scanEdges
      split
      · rename_i hcond
        intro heq
        have : h = e := by simpa using heq
        subst this
        simp [validateEdgeBasic, ht] at hcond
      · exact ih

theorem alwaysScan_ne_no_target (c : Chart) (e : Nat)
    (ht : c.edgeTarget e = none) : ∀ edges, alwaysScan c edges ≠ some e := by
  intro edges
  induction edges with
  | nil => simp [alwaysScan]
  | cons h rest ih =>
      unfold alwaysScan
      split
      · exact ih
      · split
        · exact ih
        · split
          · exact ih
          · rename_i hval
            intro heq
            have : h = e := by simpa using heq
            subst this
            simp [validateEdgeBasic, ht] at hval

theorem tickAfterGo_no_target (c : Chart) (e : Nat)
    (ht : c.edgeTarget e = none) :
    ∀ (delta source : Nat) (edges : List Nat) (ds : DispState),
      ∀ pr ∈ (tickAfterGo c delta source edges ds).fired,
        pr ∈ ds.fired ∨ pr.2 ≠ e := by
  intro delta source edges
  induction edges with
  | nil => intro ds pr hpr; exact Or.inl hpr
  | cons h rest ih =>
      intro ds pr hpr
      unfold tickAfterGo at hpr
      split at hpr
      · exact ih _ pr hpr
      · split at hpr
        · exact ih _ pr hpr
        · split at hpr
          · exact ih _ pr hpr
          · rename_i dur heq
            simp only [] at hpr
            by_cases hcross :
                (!(decide (dur.2 < dur.1) && decide (dur.1 ≤ dur.2 + delta))) = true
            · rw [if_pos hcross] at hpr
              have h2 := ih _ pr hpr
              exact h2
            · rw [if_neg hcross] at hpr
              by_cases hval : (!validateEdgeBasic c h) = true
              · rw [if_pos hval] at hpr
                have h2 := ih _ pr hpr
                exact h2
              · rw [if_neg hval] at hpr
                simp only [List.mem_append, List.mem_singleton] at hpr
                rcases hpr with hpr | rfl
                · exact Or.inl hpr
                · right
                  intro hc
                  have hhe : h = e := hc
                  subst hhe
                  simp [validateEdgeBasic, ht] at hval

theorem tickAfterEventTimersEdge_no_target (c : Chart) (e : Nat)
    (ht : c.edgeTarget e = none) (delta : Nat) (ds : DispState) (x : Nat) :
    ∀ pr ∈ (tickAfterEventTimersEdge c delta ds x).fired,
      pr ∈ ds.fired ∨ pr.2 ≠ e := by
  intro pr hpr
  unfold tickAfterEventTimersEdge at hpr
  split at hpr
  · rename_i dur pv heq1 heq2
    split at hpr
    · exact Or.inl hpr
    · split at hpr
      · exact Or.inl hpr
      · split at hpr
        · exact Or.inl hpr
        · rename_i src heq3
          split at hpr
          · exact Or.inl hpr
          · simp only [] at hpr
            by_cases hcross :
                (!(decide (dur.2 < dur.1) && decide (dur.1 ≤ dur.2 + delta))) = true
            · rw [if_pos hcross] at hpr
              exact Or.inl hpr
            · rw [if_neg hcross] at hpr
              by_cases hval : (!validateEdgeBasic c x) = true
              · rw [if_pos hval] at hpr
                exact Or.inl hpr
              · rw [if_neg hval] at hpr
                simp only [clearEdgeTimerAndPending, List.mem_append,
                  List.mem_singleton] at hpr
                rcases hpr with hpr | rfl
                · exact Or.inl hpr
                · right
                  intro hc
                  have hxe : x = e := hc
                  subst hxe
                  simp [validateEdgeBasic, ht] at hval
  · exact Or.inl hpr

theorem tickAfterEventTimers_no_target (c : Chart) (e : Nat)
    (ht : c.edgeTarget e = none) (delta : Nat) :
    ∀ (edges : List Nat) (ds : DispState),
      ∀ pr ∈ (edges.foldl (tickAfterEventTimersEdge c delta) ds).fired,
        pr ∈ ds.fired ∨ pr.2 ≠ e := by
  intro edges
  induction edges with
  | nil => intro ds pr hpr; exact Or.inl hpr
  | cons h rest ih =>
      intro ds pr hpr
      rcases ih (tickAfterEventTimersEdge c delta ds h) pr hpr with hmem | hne
      · exact tickAfterEventTimersEdge_no_target c e ht delta ds h pr hmem
      · exact Or.inr hne

/-- C10: an edge without a `Target` is permanently ineligible: it fails
`validate_edge_basic`, is never selected by the event-edge scan or the
Always-edge scan, is skipped by the guard-changed re-check, and is never
fired by either timer-expiry system. -/
theorem C10_no_target_inert (c : Chart) (e : Nat)
    (ht : c.edgeTarget e = none) :
    validateEdgeBasic c e = false ∧
    (∀ edges, scanEdges c edges ≠ some e) ∧
    (∀ edges, alwaysScan c edges ≠ some e) ∧
    (∀ ds, checkAlwaysOnGuardsChangedEdge c ds e = ds) ∧
    (∀ (delta source : Nat) (edges : List Nat) (ds : DispState),
      ∀ pr ∈ (tickAfterGo c delta source edges ds).fired, pr ∈ ds.fired ∨ pr.2 ≠ e) ∧
    (∀ (delta : Nat) (ds : DispState),
      ∀ pr ∈ (tickAfterEventTimers c ds delta).fired, pr ∈ ds.fired ∨ pr.2 ≠ e) := by
  refine ⟨?_, scanEdges_ne_no_target c e ht, alwaysScan_ne_no_target c e ht, ?_,
    tickAfterGo_no_target c e ht, ?_⟩
  · simp [validateEdgeBasic, ht]
  · intro ds
    unfold checkAlwaysOnGuardsChangedEdge
    split
    · rfl
    · split
      · rfl
      · split
        · rfl
        · split
          · rfl
          · split
            · rfl
            · simp [ht]
  · intro delta ds
    exact tickAfterEventTimers_no_target c e ht delta c.edges ds

/-- C10 witness: edge 99 (absent from the world, hence without a target)
is rejected everywhere in `chartPrio`. -/
theorem C10_no_target_inert_witness :
    validateEdgeBasic chartPrio 99 = false ∧
    scanEdges chartPrio [99] ≠ some 99 ∧
    alwaysScan chartPrio [99] ≠ some 99 ∧
    checkAlwaysOnGuardsChangedEdge chartPrio dsPrio 99 = dsPrio ∧
    (∀ pr ∈ (tickAfterGo chartPrio 3 1 [99] dsPrio).fired,
      pr ∈ dsPrio.fired ∨ pr.2 ≠ 99) ∧
    (∀ pr ∈ (tickAfterEventTimers chartPrio dsPrio 3).fired,
      pr ∈ dsPrio.fired ∨ pr.2 ≠ 99) := by
  have h := C10_no_target_inert chartPrio 99 (by decide)
  exact ⟨h.1, h.2.1 [99], h.2.2.1 [99], h.2.2.2.1 dsPrio,
    h.2.2.2.2.1 3 1 [99] dsPrio, h.2.2.2.2.2 3 dsPrio⟩

/- ## C6: delayed event-edge cancellation -/

theorem cancelStep_pending_none {ds : DispState} {x y : Nat}
    (h : ds.pending x = none) : (cancelStep ds y).pending x = none := by
  unfold cancelStep clearEdgeTimerAndPending
  split
  · by_cases hxy : x = y <;> simp [hxy, h]
  · exact h

theorem cancelStep_timer_none {ds : DispState} {x y : Nat}
    (h : ds.timer x = none) : (cancelStep ds y).timer x = none := by
  unfold cancelStep clearEdgeTimerAndPending
  split
  · by_cases hxy : x = y <;> simp [hxy, h]
  · exact h

theorem cancelFold_pending_none :
    ∀ (l : List Nat) (ds : DispState) (x : Nat), ds.pending x = none →
      (l.foldl cancelStep ds).pending x = none := by
  intro l
  induction l with
  | nil => intro ds x h; exact h
  | cons a rest ih => intro ds x h; exact ih _ x (cancelStep_pending_none h)

theorem cancelFold_timer_none :
    ∀ (l : List Nat) (ds : DispState) (x : Nat), ds.timer x = none →
      (l.foldl cancelStep ds).timer x = none := by
  intro l
  induction l with
  | nil => intro ds x h; exact h
  | cons a rest ih => intro ds x h; exact ih _ x (cancelStep_timer_none h)

theorem cancelFold_clears :
    ∀ (l : List Nat) (ds : DispState) (e : Nat), e ∈ l →
      (l.foldl cancelStep ds).pending e = none ∧
      ((ds.pending e).isSome = true → (l.foldl cancelStep ds).timer e = none) := by
  intro l
  induction l with
  | nil => intro ds e h; cases h
  | cons a rest ih =>
      intro ds e hmem
      rcases List.mem_cons.mp hmem with rfl | hrest
      · by_cases hp : (ds.pending e).isSome = true
        · have hstep : cancelStep ds e = clearEdgeTimerAndPending ds e := by
            unfold cancelStep
            rw [hp]
            simp
          constructor
          · rw [List.foldl_cons, hstep]
            exact cancelFold_pending_none rest _ e (by simp [clearEdgeTimerAndPending])
          · intro _
            rw [List.foldl_cons, hstep]
            exact cancelFold_timer_none rest _ e (by simp [clearEdgeTimerAndPending])
        · have hnone : ds.pending e = none := by
            cases hcase : ds.pending e
            · rfl
            · rw [hcase] at hp; simp at hp
          have hstep : cancelStep ds e = ds := by
            unfold cancelStep
            rw [hnone]
            simp
          constructor
          · rw [List.foldl_cons, hstep]
            exact cancelFold_pending_none rest _ e hnone
          · intro hcontra
            rw [hnone] at hcontra
            simp at hcontra
      · constructor
        · exact (ih (cancelStep ds a) e hrest).1
        · intro hp
          by_cases hea : e = a
          · subst hea
            by_cases hps : (ds.pending e).isSome = true
            · have hstep : cancelStep ds e = clearEdgeTimerAndPending ds e := by
                unfold cancelStep
                rw [hps]
                simp
              rw [List.foldl_cons, hstep]
              exact cancelFold_timer_none rest _ e (by simp [clearEdgeTimerAndPending])
            · exact absurd hp hps
          · have hpend : (cancelStep ds a).pending e = ds.pending e := by
              unfold cancelStep clearEdgeTimerAndPending
              split <;> simp [hea]
            have htimer : (cancelStep ds a).timer e = ds.timer e := by
              unfold cancelStep clearEdgeTimerAndPending
              split <;> simp [hea]
            have h2 := (ih (cancelStep ds a) e hrest).2
            rw [hpend] at h2
            exact h2 hp

/-- One tick step touching edge `x` neither creates a pending record for
edge `e` nor fires `e` when `e` has no pending record. -/
theorem tickEdge_no_pending_step (c : Chart) (delta : Nat) (ds : DispState) (x e : Nat)
    (h : ds.pending e = none) :
    (tickAfterEventTimersEdge c delta ds x).pending e = none ∧
    ∀ pr ∈ (tickAfterEventTimersEdge c delta ds x).fired, pr ∈ ds.fired ∨ pr.2 ≠ e := by
  by_cases hxe : x = e
  · subst hxe
    unfold tickAfterEventTimersEdge
    rw [h]
    cases ds.timer x <;> exact ⟨h, fun pr hpr => Or.inl hpr⟩
  · unfold tickAfterEventTimersEdge
    split
    · rename_i dur pv heq1 heq2
      split
      · exact ⟨h, fun pr hpr => Or.inl hpr⟩
      · split
        · exact ⟨h, fun pr hpr => Or.inl hpr⟩
        · split
          · exact ⟨h, fun pr hpr => Or.inl hpr⟩
          · rename_i src heq3
            split
            · refine ⟨?_, fun pr hpr => Or.inl hpr⟩
              simp [clearEdgeTimerAndPending, h, Ne.symm hxe]
            · simp only []
              by_cases hcross :
                  (!(decide (dur.2 < dur.1) && decide (dur.1 ≤ dur.2 + delta))) = true
              · rw [if_pos hcross]
                exact ⟨h, fun pr hpr => Or.inl hpr⟩
              · rw [if_neg hcross]
                by_cases hval : (!validateEdgeBasic c x) = true
                · rw [if_pos hval]
                  refine ⟨?_, fun pr hpr => Or.inl hpr⟩
                  simp [clearEdgeTimerAndPending, h, Ne.symm hxe]
                · rw [if_neg hval]
                  refine ⟨?_, ?_⟩
                  · simp [clearEdgeTimerAndPending, h, Ne.symm hxe]
                  · intro pr hpr
                    simp only [List.mem_append, List.mem_singleton] at hpr
                    rcases hpr with hpr | rfl
                    · exact Or.inl hpr
                    · exact Or.inr hxe
    · exact ⟨h, fun pr hpr => Or.inl hpr⟩

/-- A whole `tick_after_event_timers` pass preserves the absence of a
pending record for `e` and never fires `e`. -/
theorem tickPass_no_pending (c : Chart) (delta : Nat) :
    ∀ (edges : List Nat) (ds : DispState) (e : Nat), ds.pending e = none →
      ((edges.foldl (tickAfterEventTimersEdge c delta) ds).pending e = none ∧
        ∀ pr ∈ (edges.foldl (tickAfterEventTimersEdge c delta) ds).fired,
          pr ∈ ds.fired ∨ pr.2 ≠ e) := by
  intro edges
  induction edges with
  | nil => intro ds e h; exact ⟨h, fun pr hpr => Or.inl hpr⟩
  | cons a rest ih =>
      intro ds e h
      have hstep := tickEdge_no_pending_step c delta ds a e h
      have hrest := ih (tickAfterEventTimersEdge c delta ds a) e hstep.1
      refine ⟨hrest.1, fun pr hpr => ?_⟩
      rcases hrest.2 pr hpr with hmem | hne
      · exact hstep.2 pr hmem
      · exact Or.inr hne

theorem tickTrace_no_pending (c : Chart) :
    ∀ (deltas : List Nat) (ds : DispState) (e : Nat), ds.pending e = none →
      ((deltas.foldl (tickAfterEventTimers c) ds).pending e = none ∧
        ∀ pr ∈ (deltas.foldl (tickAfterEventTimers c) ds).fired,
          pr ∈ ds.fired ∨ pr.2 ≠ e) := by
  intro deltas
  induction deltas with
  | nil => intro ds e h; exact ⟨h, fun pr hpr => Or.inl hpr⟩
  | cons d rest ih =>
      intro ds e h
      have hstep := tickPass_no_pending c d c.edges ds e h
      have hrest := ih (tickAfterEventTimers c ds d) e hstep.1
      refine ⟨hrest.1, fun pr hpr => ?_⟩
      rcases hrest.2 pr hpr with hmem | hne
      · exact hstep.2 pr hmem
      · exact Or.inr hne

/-- C6: (exit cancel) `cancel_pending_event_on_exit` discards the pending
record — and the timer of an armed edge — of every listed edge, and
(never fires) once the pending record is gone, no sequence of timer ticks
ever fires the edge or re-creates the record; (exit race) the timer
system itself discards an armed edge whose source became inactive, firing
nothing; (invalid at expiry) at expiry time a blocking guard set or
missing target makes the timer system discard the pending record, firing
nothing. -/
theorem C6_delayed_edge_cancellation :
    (∀ (c : Chart) (ds : DispState) (source e : Nat), e ∈ c.transitions source →
      (cancelPendingEventOnExit c ds source).pending e = none ∧
      ((ds.pending e).isSome = true →
        (cancelPendingEventOnExit c ds source).timer e = none)) ∧
    (∀ (c : Chart) (ds : DispState) (e : Nat), ds.pending e = none →
      ∀ deltas : List Nat,
        (deltas.foldl (tickAfterEventTimers c) ds).pending e = none ∧
        ∀ pr ∈ (deltas.foldl (tickAfterEventTimers c) ds).fired,
          pr ∈ ds.fired ∨ pr.2 ≠ e) ∧
    (∀ (c : Chart) (delta : Nat) (ds : DispState) (e src : Nat) (dur : Nat × Nat),
      ds.timer e = some dur → (ds.pending e).isSome = true →
      c.edgeListener e = true → (c.edgeAfter e).isSome = true →
      c.edgeSource e = some src → ds.activeFlag src = false →
      tickAfterEventTimersEdge c delta ds e = clearEdgeTimerAndPending ds e) ∧
    (∀ (c : Chart) (delta : Nat) (ds : DispState) (e src d el : Nat),
      ds.timer e = some (d, el) → (ds.pending e).isSome = true →
      c.edgeListener e = true → (c.edgeAfter e).isSome = true →
      c.edgeSource e = some src → ds.activeFlag src = true →
      el < d → d ≤ el + delta → validateEdgeBasic c e = false →
      tickAfterEventTimersEdge c delta ds e = clearEdgeTimerAndPending ds e) := by
  refine ⟨?_, ?_, ?_, ?_⟩
  · intro c ds source e hmem
    unfold cancelPendingEventOnExit
    exact cancelFold_clears (c.transitions source) ds e hmem
  · intro c ds e h deltas
    exact tickTrace_no_pending c deltas ds e h
  · intro c delta ds e src dur htim hpend hlis haft hsrc hact
    obtain ⟨pv, hpv⟩ := Option.isSome_iff_exists.mp hpend
    obtain ⟨av, hav⟩ := Option.isSome_iff_exists.mp haft
    unfold tickAfterEventTimersEdge
    rw [htim, hpv]
    simp [hlis, hav, hsrc, hact]
  · intro c delta ds e src d el htim hpend hlis haft hsrc hact hlt hle hval
    obtain ⟨pv, hpv⟩ := Option.isSome_iff_exists.mp hpend
    obtain ⟨av, hav⟩ := Option.isSome_iff_exists.mp haft
    unfold tickAfterEventTimersEdge
    rw [htim, hpv]
    simp [hlis, hav, hsrc, hact, hlt, hle, hval]

/-- C6 witness: in `chartAfter`, exiting state 1 cancels armed edge 10;
ticking from an empty pending record never fires edge 10; an inactive
source makes the tick system discard edge 10; and the blocked edge 11 is
discarded at expiry. -/
theorem C6_delayed_edge_cancellation_witness :
    (cancelPendingEventOnExit chartAfter dsAfter 1).pending 10 = none ∧
    (cancelPendingEventOnExit chartAfter dsAfter 1).timer 10 = none ∧
    ([5, 5].foldl (tickAfterEventTimers chartAfter) baseDisp).pending 10 = none ∧
    tickAfterEventTimersEdge chartAfter 5
        { dsAfter with activeFlag := fun _ => false } 10 =
      clearEdgeTimerAndPending { dsAfter with activeFlag := fun _ => false } 10 ∧
    tickAfterEventTimersEdge chartAfter 5 dsAfter 11 =
      clearEdgeTimerAndPending dsAfter 11 := by
  refine ⟨(C6_delayed_edge_cancellation.1 chartAfter dsAfter 1 10 (by decide)).1,
    (C6_delayed_edge_cancellation.1 chartAfter dsAfter 1 10 (by decide)).2 (by decide),
    (C6_delayed_edge_cancellation.2.1 chartAfter baseDisp 10 (by decide) [5, 5]).1,
    C6_delayed_edge_cancellation.2.2.1 chartAfter 5 _ 10 1 (5, 0) (by decide) (by decide)
      (by decide) (by decide) (by decide) (by decide),
    C6_delayed_edge_cancellation.2.2.2 chartAfter 5 dsAfter 11 1 5 0 (by decide) (by decide)
      (by decide) (by decide) (by decide) (by decide) (by decide) (by decide) (by decide)⟩

/- ## C8: first-match-wins priority -/

/-- C8: (event scan) when the head of a source's edge list matches the
event, is unguarded, has a target and no delay (and the source does not
defer), that first edge fires and the scan stops, whatever eligible edges
follow; (always scan) the same for Always-edges evaluated on entry;
(example world) in `chartPrio`, with edges [10 to T1, 11 to T2] both
unguarded and matching, dispatching the event fires exactly edge 10, and
after the transition T1 (state 2) is active while T2 (state 3) is not. -/
theorem C8_first_match_wins :
    (∀ (c : Chart) (ds : DispState) (s ev e1 : Nat) (rest : List Nat),
      c.transitions s = e1 :: rest → c.hasDefer s = false →
      c.edgeListener e1 = true → c.edgeGuards e1 = [] →
      (c.edgeTarget e1).isSome = true → c.edgeAfter e1 = none →
      tryFireFirstMatchingEdgeGeneric c ds s ev =
        ({ ds with fired := ds.fired ++ [(s, e1)] }, true)) ∧
    (∀ (c : Chart) (ds : DispState) (s e1 : Nat) (rest : List Nat),
      c.transitions s = e1 :: rest → c.edgeAlways e1 = true →
      c.edgeAfter e1 = none → c.edgeGuards e1 = [] →
      (c.edgeTarget e1).isSome = true →
      alwaysEdgeListener c ds s = { ds with fired := ds.fired ++ [(s, e1)] }) ∧
    ((edgeEventListenerRoot chartPrio [1] dsPrio 7).fired = [(1, 10)] ∧
      (transitionObserver chartPrio stPrio 1 10).1.activeLeaves = [2] ∧
      2 ∈ (transitionObserver chartPrio stPrio 1 10).1.active ∧
      3 ∉ (transitionObserver chartPrio stPrio 1 10).1.active) := by
  refine ⟨?_, ?_, by decide, by decide, by decide, by decide⟩
  · intro c ds s ev e1 rest hlist hdef hlis hguards htar hafter
    have hscan : scanEdges c (c.transitions s) = some e1 := by
      rw [hlist]
      unfold scanEdges validateEdgeBasic
      simp [hlis, hguards, htar]
    unfold tryFireFirstMatchingEdgeGeneric
    rw [hscan]
    simp [hdef, hafter]
  · intro c ds s e1 rest hlist halways hafter hguards htar
    have hscan : alwaysScan c (c.transitions s) = some e1 := by
      rw [hlist]
      unfold alwaysScan validateEdgeBasic
      simp [halways, hafter, hguards, htar]
    unfold alwaysEdgeListener
    rw [hscan]

/-- C8 witness: applying the scan parts at `chartPrio` (event edges) and
`chartGuard` (Always-edges). -/
theorem C8_first_match_wins_witness :
    tryFireFirstMatchingEdgeGeneric chartPrio dsPrio 1 7 =
      ({ dsPrio with fired := [(1, 10)] }, true) ∧
    alwaysEdgeListener chartGuard dsGuard 1 = { dsGuard with fired := [(1, 10)] } := by
  constructor
  · exact C8_first_match_wins.1 chartPrio dsPrio 1 7 10 [11] (by decide) (by decide)
      (by decide) (by decide) (by decide) (by decide)
  · exact C8_first_match_wins.2.1 chartGuard dsGuard 1 10 [11] (by decide) (by decide)
      (by decide) (by decide) (by decide)

/- ## C4: deep history round-trip -/

theorem mem_deepRestore (c : Chart) (R : Nat) :
    ∀ (saved leaves : List Nat) (evs : List Ev) (x : Nat),
      x ∈ (deepRestore c R saved leaves evs).1 ↔ x ∈ leaves ∨ x ∈ saved := by
  intro saved
  induction saved with
  | nil => simp [deepRestore]
  | cons s rest ih =>
      intro leaves evs x
      show x ∈ (deepRestore c R rest (pushUniq leaves s) _).1 ↔ _
      rw [ih, mem_pushUniq]
      simp only [List.mem_cons]
      tauto

theorem applyExitPhase_deep_stable (c : Chart) (al : List Nat) (R : Nat)
    (hR : c.history R = some HistoryMode.deep) :
    ∀ (exits : List Nat) (hist : Nat → Option (List Nat)),
      hist R = some (deepSnapshot c al R) →
      (applyExitPhase c al hist exits).1 R = some (deepSnapshot c al R) := by
  intro exits
  induction exits with
  | nil => intro hist h; exact h
  | cons e rest ih =>
      intro hist h
      show (applyExitPhase c al _ rest).1 R = _
      apply ih
      cases hce : c.history e with
      | none => exact h
      | some mode =>
          cases mode with
          | shallow =>
              by_cases hRe : R = e
              · subst hRe
                have hcontra := hR.symm.trans hce
                simp at hcontra
              · simp [hRe, h]
          | deep =>
              by_cases hRe : R = e
              · subst hRe
                simp
              · simp [hRe, h]

theorem applyExitPhase_deep_write (c : Chart) (al : List Nat) (R : Nat)
    (hR : c.history R = some HistoryMode.deep) :
    ∀ (exits : List Nat) (hist : Nat → Option (List Nat)), R ∈ exits →
      (applyExitPhase c al hist exits).1 R = some (deepSnapshot c al R) := by
  intro exits
  induction exits with
  | nil => intro hist h; cases h
  | cons e rest ih =>
      intro hist hmem
      show (applyExitPhase c al _ rest).1 R = _
      rcases List.mem_cons.mp hmem with rfl | hrest
      · by_cases hr : R ∈ rest
        · exact ih _ hr
        · apply applyExitPhase_deep_stable c al R hR
          rw [hR]
          simp
      · exact ih _ hrest

/-- C4: (snapshot) exiting a Deep-history node stores exactly the active
leaves that are the node or its descendants; (restore) drilling into a
Deep-history node with a stored snapshot yields exactly the saved leaves
as the new active leaves, drilling no further; (round-trip) in the spec's
example world `chartHist`, leaving the region and coming back restores
exactly the original leaf set. -/
theorem C4_deep_history_roundtrip :
    (∀ (c : Chart) (al : List Nat) (hist : Nat → Option (List Nat))
        (exits : List Nat) (R : Nat),
      c.history R = some HistoryMode.deep → R ∈ exits →
      (applyExitPhase c al hist exits).1 R = some (deepSnapshot c al R)) ∧
    (∀ (c : Chart) (hist : Nat → Option (List Nat)) (fuel R : Nat) (saved : List Nat),
      c.history R = some HistoryMode.deep → hist R = some saved →
      ∀ x, x ∈ (getAllLeafStates c hist (fuel + 1) [R] [] []).1 ↔ x ∈ saved) ∧
    ((transitionObserver chartHist stHist 1 10).1.historyState 1 = some [2] ∧
      (transitionObserver chartHist
          (transitionObserver chartHist stHist 1 10).1 3 11).1.activeLeaves = [2]) := by
  refine ⟨?_, ?_, by decide, by decide⟩
  · intro c al hist exits R hR hmem
    exact applyExitPhase_deep_write c al R hR exits hist hmem
  · intro c hist fuel R saved hR hsaved x
    unfold getAllLeafStates
    rw [hR, hsaved]
    simp only [getAllLeafStates_nil, mem_deepRestore]
    simp

/-- C4 witness: in `chartHist`, exiting [2, 1] writes snapshot [2] at the
region 1, and drilling into region 1 with that snapshot restores exactly
leaf 2. -/
theorem C4_deep_history_roundtrip_witness :
    (applyExitPhase chartHist [2] stHist.historyState [2, 1]).1 1 =
      some (deepSnapshot chartHist [2] 1) ∧
    (2 ∈ (getAllLeafStates chartHist
        (fun n => if n = 1 then some [2] else none) 8 [1] [] []).1 ↔ 2 ∈ [2]) := by
  constructor
  · exact C4_deep_history_roundtrip.1 chartHist [2] stHist.historyState [2, 1] 1
      (by decide) (by decide)
  · exact C4_deep_history_roundtrip.2.1 chartHist
      (fun n => if n = 1 then some [2] else none) 7 1 [2] (by decide) (by decide) 2

/- ## C1: active-set closure invariant -/

/-- The spec's closure invariant: `active` equals {root} together with
every active leaf and all of its ancestors up to the root. -/
def ActiveClosureInv (c : Chart) (st : MachState) : Prop :=
  ∀ x, x ∈ st.active ↔ (x = c.root ∨ ∃ l ∈ st.activeLeaves, x ∈ pathToRoot c l)

/-- Every run of `transition_observer` either returns the machine
untouched (the silent no-op) or ends in `finishTransition`, which
recomputes `active` from the leaves. -/
theorem transitionObserver_shape (c : Chart) (st : MachState) (source edge : Nat) :
    transitionObserver c st source edge = (st, []) ∨
    ∃ h L evs, transitionObserver c st source edge = finishTransition c h L evs := by
  unfold transitionObserver
  split
  · right; exact ⟨_, _, _, rfl⟩
  · cases hce : computeExitEnter c st.activeLeaves source ((c.edgeTarget edge).getD edge)
        (c.edgeKind edge == EdgeKind.internal) with
    | none => left; simp only [hce]
    | some p =>
        right
        obtain ⟨exits, enters⟩ := p
        simp only [hce]
        unfold continueTransition
        exact ⟨_, _, _, rfl⟩

theorem inv_of_compute (c : Chart) (L : List Nat) (hne : L ≠ [])
    (hroot : ∀ l ∈ L, c.root ∈ pathToRoot c l) :
    ∀ x, x ∈ computeActiveFromLeaves c L ↔
      (x = c.root ∨ ∃ l ∈ L, x ∈ pathToRoot c l) := by
  intro x
  rw [mem_computeActiveFromLeaves]
  constructor
  · exact Or.inr
  · rintro (rfl | h)
    · obtain ⟨l0, hl0⟩ := List.exists_mem_of_ne_nil L hne
      exact ⟨l0, hl0, hroot l0 hl0⟩
    · exact h

/-- C1: whenever the machine state satisfies the closure invariant and
the resulting leaf set is non-empty with all leaves rooted under the
machine root, running `transition_observer` re-establishes the closure
invariant — `active` equals {root} plus every active leaf with all of its
ancestors. -/
theorem C1_active_closure (c : Chart) (st : MachState) (source edge : Nat)
    (hinv : ActiveClosureInv c st)
    (hroot : ∀ l ∈ (transitionObserver c st source edge).1.activeLeaves,
      c.root ∈ pathToRoot c l)
    (hne : (transitionObserver c st source edge).1.activeLeaves ≠ []) :
    ActiveClosureInv c (transitionObserver c st source edge).1 := by
  rcases transitionObserver_shape c st source edge with heq | ⟨h, L, evs, heq⟩
  · rw [heq]
    exact hinv
  · rw [heq] at hroot hne ⊢
    intro x
    show x ∈ computeActiveFromLeaves c L ↔ (x = c.root ∨ ∃ l ∈ L, x ∈ pathToRoot c l)
    exact inv_of_compute c L hne hroot x

/-- C1 witness: the invariant holds for `chartPrio` at rest and is
re-established after firing edge 10. -/
theorem C1_active_closure_witness :
    ActiveClosureInv chartPrio (transitionObserver chartPrio stPrio 1 10).1 := by
  have hinv : ActiveClosureInv chartPrio stPrio := by
    intro x
    show x ∈ [0, 1] ↔ (x = 0 ∨ ∃ l ∈ [1], x ∈ pathToRoot chartPrio l)
    have hp : pathToRoot chartPrio 1 = [1, 0] := by decide
    simp [hp]
    tauto
  exact C1_active_closure chartPrio stPrio 1 10 hinv (by decide) (by decide)

/- ## C2: internal vs external self-transitions -/

theorem nonParallelExits_selfloop (c : Chart) (source : Nat) (isInt : Bool) :
    nonParallelExits c (pathToRoot c source) source source isInt [source] [] none =
      (if isInt then ([], (pathToRoot c source).length)
       else ([source], (pathToRoot c source).length - 1)) := by
  have hd0 := lcaDepthOf_self (pathToRoot c source)
  have hlen : 0 < (pathToRoot c source).length := by simp [pathToRoot]
  simp only [nonParallelExits, hd0, hlen, if_pos]
  cases isInt with
  | true => simp [Nat.sub_self, extendUniq, pushUniq]
  | false => simp [Nat.sub_self, pathToRoot, extendUniq, pushUniq]

theorem computeExitEnter_selfloop (c : Chart) (al : List Nat) (source : Nat) (isInt : Bool)
    (hp : c.isParallel source = false)
    (hf : al.filter (isDescOrSelf c source) = [source]) :
    computeExitEnter c al source source isInt =
      (if isInt then some ([], []) else some ([source], [source])) := by
  unfold computeExitEnter
  simp only [hp, Bool.false_eq_true, if_false, hf]
  rw [nonParallelExits_selfloop]
  cases isInt with
  | true => simp [Nat.sub_self]
  | false => simp [Nat.sub_self, pathToRoot]

theorem applyExitPhase_hist_none (c : Chart) (al : List Nat) :
    ∀ (exits : List Nat) (hist : Nat → Option (List Nat)),
      (∀ e ∈ exits, c.history e = none) → (applyExitPhase c al hist exits).1 = hist := by
  intro exits
  induction exits with
  | nil => intro hist _; rfl
  | cons e rest ih =>
      intro hist hnone
      show (applyExitPhase c al _ rest).1 = hist
      rw [hnone e (List.mem_cons_self e rest)]
      exact ih hist (fun x hx => hnone x (List.mem_cons_of_mem e hx))

theorem nonParallelExits_ancestor (c : Chart) (source L : Nat) (pre : List Nat) (isInt : Bool)
    (hpath : pathToRoot c L = pre ++ pathToRoot c source)
    (hLs : (source == L) = false) :
    nonParallelExits c (pathToRoot c source) source source isInt [L] [] none =
      (if isInt then (extendUniq [] pre, (pathToRoot c source).length)
       else (extendUniq [] (pre ++ [source]), (pathToRoot c source).length - 1)) := by
  obtain ⟨t, hteq⟩ : ∃ t, pathToRoot c source = source :: t := ⟨iterAncestors c source, rfl⟩
  have hplen : 0 < (pathToRoot c source).length := by simp [pathToRoot]
  have hd0 : lcaDepthOf (pathToRoot c L) (pathToRoot c source) =
      (pathToRoot c source).length := by
    rw [hpath]; exact lcaDepthOf_append_self pre _
  have hgetd : (pathToRoot c L).getD
      ((pathToRoot c L).length - (pathToRoot c source).length) 0 = source := by
    rw [hpath, List.length_append, Nat.add_sub_cancel, hteq]
    exact getD_append_length pre source 0 t
  have htake_ext : (pathToRoot c L).take
      ((pathToRoot c L).length - ((pathToRoot c source).length - 1)) = pre ++ [source] := by
    rw [hpath, List.length_append]
    have harith : pre.length + (pathToRoot c source).length -
        ((pathToRoot c source).length - 1) = pre.length + 1 := by omega
    rw [harith, hteq]
    exact take_append_succ pre source t
  have htake_int : (pathToRoot c L).take
      ((pathToRoot c L).length - (pathToRoot c source).length) = pre := by
    rw [hpath, List.length_append, Nat.add_sub_cancel]
    exact List.take_left pre _
  simp only [nonParallelExits, hd0, hplen, if_pos, hgetd, hLs]
  cases isInt with
  | true => simp [htake_int]
  | false => simp [htake_ext]

theorem computeExitEnter_ancestor (c : Chart) (al : List Nat) (source L : Nat)
    (pre : List Nat) (isInt : Bool)
    (hp : c.isParallel source = false)
    (hf : al.filter (isDescOrSelf c source) = [L])
    (hpath : pathToRoot c L = pre ++ pathToRoot c source)
    (hLs : (source == L) = false) :
    computeExitEnter c al source source isInt =
      (if isInt then some (extendUniq [] pre, [])
       else some (extendUniq [] (pre ++ [source]), [source])) := by
  obtain ⟨t, hteq⟩ : ∃ t, pathToRoot c source = source :: t := ⟨iterAncestors c source, rfl⟩
  unfold computeExitEnter
  simp only [hp, Bool.false_eq_true, if_false, hf]
  rw [nonParallelExits_ancestor c source L pre isInt hpath hLs]
  cases isInt with
  | true => simp [Nat.sub_self]
  | false =>
      have henter : (pathToRoot c source).take
          ((pathToRoot c source).length - ((pathToRoot c source).length - 1)) = [source] := by
        have harith : (pathToRoot c source).length -
            ((pathToRoot c source).length - 1) = 1 := by
          have hl : 0 < (pathToRoot c source).length := by simp [pathToRoot]
          omega
        rw [harith, hteq]
        rfl
      simp [henter]

/-- C2: (leaf self-loop) on a machine whose only active leaf under S is S
itself, with an edge targeting S: if the edge is External, the leaf-equals-
target decrement makes S itself exited and re-entered, so the dispatch
fires exactly ExitState(S), TransitionActions, EnterState(S); if the edge
is Internal, no decrement happens and the dispatch fires only the
TransitionActions notification — neither ExitState(S) nor EnterState(S).
(LCA equals source) when the single active leaf L is a strict descendant
of S, the computed LCA of the self-transition is S itself; the External
decrement puts S in the exit set and makes [S] the entry path, while
Internal exits only the states strictly below S and enters nothing. -/
theorem C2_self_transition_semantics :
    (∀ (c : Chart) (st : MachState) (source edge : Nat),
      c.isParallel source = false →
      c.edgeTarget edge = some source →
      st.activeLeaves.filter (isDescOrSelf c source) = [source] →
      c.history source = none →
      c.initialChild source = none →
      0 < c.bound →
      ((c.edgeKind edge = EdgeKind.external →
        (transitionObserver c st source edge).2 =
          [Ev.exitState source, Ev.transitionActions edge, Ev.enter source]) ∧
       (c.edgeKind edge = EdgeKind.internal →
        (transitionObserver c st source edge).2 = [Ev.transitionActions edge]))) ∧
    (∀ (c : Chart) (al : List Nat) (source L : Nat) (pre : List Nat),
      c.isParallel source = false →
      al.filter (isDescOrSelf c source) = [L] →
      pathToRoot c L = pre ++ pathToRoot c source →
      L ≠ source →
      source ∉ pre →
      ((computeExitEnter c al source source false =
          some (extendUniq [] (pre ++ [source]), [source]) ∧
        source ∈ extendUniq [] (pre ++ [source])) ∧
       (computeExitEnter c al source source true = some (extendUniq [] pre, []) ∧
        source ∉ extendUniq [] pre))) := by
  constructor
  · intro c st source edge hp ht hf hh hi hb
    have hsrcmem : source ∈ st.activeLeaves := by
      have hmem : source ∈ st.activeLeaves.filter (isDescOrSelf c source) := by
        rw [hf]; simp
      exact (List.mem_filter.mp hmem).1
    have hne : st.activeLeaves.isEmpty = false := by
      cases hl : st.activeLeaves
      · rw [hl] at hsrcmem; cases hsrcmem
      · simp [hl]
    have hns : (c.edgeTarget edge).getD edge = source := by rw [ht]; rfl
    obtain ⟨k, hk⟩ : ∃ k, c.bound = k + 1 := ⟨c.bound - 1, by omega⟩
    have hdrill : ∀ hist, getAllLeafStates c hist c.bound [source] [] [] = ([source], []) := by
      intro hist
      rw [hk]
      exact getAllLeafStates_leaf c hist k source hh hp hi
    constructor
    · intro hkind
      have hint : (c.edgeKind edge == EdgeKind.internal) = false := by rw [hkind]; rfl
      have hhist := applyExitPhase_hist_none c st.activeLeaves [source] st.historyState
        (by intro e he; simp at he; rw [he]; exact hh)
      have hevs := applyExitPhase_events c st.activeLeaves st.historyState [source]
      unfold transitionObserver
      simp only [hne, Bool.false_eq_true, if_false, hns, hint,
        computeExitEnter_selfloop c st.activeLeaves source false hp hf, continueTransition]
      simp [hhist, hevs, hdrill, finishTransition]
    · intro hkind
      have hint : (c.edgeKind edge == EdgeKind.internal) = true := by rw [hkind]; rfl
      unfold transitionObserver
      simp only [hne, Bool.false_eq_true, if_false, hns, hint,
        computeExitEnter_selfloop c st.activeLeaves source true hp hf, continueTransition]
      simp [applyExitPhase, hdrill, finishTransition]
  · intro c al source L pre hp hf hpath hLs hnotin
    have hbeq : (source == L) = false := by
      rw [beq_eq_false_iff_ne]
      exact fun h2 => hLs h2.symm
    refine ⟨⟨?_, ?_⟩, ⟨?_, ?_⟩⟩
    · rw [computeExitEnter_ancestor c al source L pre false hp hf hpath hbeq]
      simp
    · rw [mem_extendUniq]
      right
      simp
    · rw [computeExitEnter_ancestor c al source L pre true hp hf hpath hbeq]
      simp
    · intro hmem
      rcases mem_extendUniq.mp hmem with h | h
      · cases h
      · exact hnotin h

/-- C2 witness: in `chartSelf` the External self-edge 2 on leaf 1 fires
exit-then-enter and the Internal self-edge 3 fires neither; in
`chartSelfDeep` the same distinction holds for the composite state 1 with
active leaf 4 (LCA equals the source). -/
theorem C2_self_transition_semantics_witness :
    (transitionObserver chartSelf stSelf 1 2).2 =
      [Ev.exitState 1, Ev.transitionActions 2, Ev.enter 1] ∧
    (transitionObserver chartSelf stSelf 1 3).2 = [Ev.transitionActions 3] ∧
    computeExitEnter chartSelfDeep [4] 1 1 false = some ([4, 1], [1]) ∧
    computeExitEnter chartSelfDeep [4] 1 1 true = some ([4], []) := by
  refine ⟨?_, ?_, ?_, ?_⟩
  · exact (C2_self_transition_semantics.1 chartSelf stSelf 1 2 (by decide) (by decide)
      (by decide) (by decide) (by decide) (by decide)).1 (by decide)
  · exact (C2_self_transition_semantics.1 chartSelf stSelf 1 3 (by decide) (by decide)
      (by decide) (by decide) (by decide) (by decide)).2 (by decide)
  · exact (C2_self_transition_semantics.2 chartSelfDeep [4] 1 4 [4] (by decide) (by decide)
      (by decide) (by decide) (by decide)).1.1
  · exact (C2_self_transition_semantics.2 chartSelfDeep [4] 1 4 [4] (by decide) (by decide)
      (by decide) (by decide) (by decide)).2.1

/- ## C3: per-region dispatch of root-targeted events -/

theorem tryFire_fired_spec (c : Chart) (ds : DispState) (source ev : Nat) :
    ((tryFireFirstMatchingEdgeGeneric c ds source ev).2 = false →
      (tryFireFirstMatchingEdgeGeneric c ds source ev).1.fired = ds.fired) ∧
    (tryFireFirstMatchingEdgeGeneric c ds source ev).1.fired.length ≤
      ds.fired.length + 1 := by
  unfold tryFireFirstMatchingEdgeGeneric
  split
  · exact ⟨fun _ => rfl, Nat.le_succ _⟩
  · cases hscan : scanEdges c (c.transitions source) with
    | none => exact ⟨fun _ => rfl, Nat.le_succ _⟩
    | some e =>
        cases hafter : c.edgeAfter e with
        | some d =>
            constructor
            · intro h
              exact absurd h (by simp [hafter])
            · simp [hafter]
        | none =>
            constructor
            · intro h
              exact absurd h (by simp [hafter])
            · simp [hafter]

theorem tryFireOnBranch_fired_spec (c : Chart) (ev root : Nat) :
    ∀ (fuel state : Nat) (visited : List Nat) (ds : DispState),
      ((tryFireOnBranch c ev root fuel state visited ds).2.2 = false →
        (tryFireOnBranch c ev root fuel state visited ds).2.1.fired = ds.fired) ∧
      (tryFireOnBranch c ev root fuel state visited ds).2.1.fired.length ≤
        ds.fired.length + 1 := by
  intro fuel
  induction fuel with
  | zero => intro state visited ds; exact ⟨fun _ => rfl, Nat.le_succ _⟩
  | succ k ih =>
      intro state visited ds
      unfold tryFireOnBranch
      by_cases hv : state ∈ visited
      · rw [if_pos hv]
        by_cases hr : state = root
        · rw [if_pos hr]
          exact ⟨fun _ => rfl, Nat.le_succ _⟩
        · rw [if_neg hr]
          cases hpar : c.parent state with
          | some p => exact ih _ _ _
          | none => exact ⟨fun _ => rfl, Nat.le_succ _⟩
      · rw [if_neg hv]
        have hstep := tryFire_fired_spec c ds state ev
        cases hfb : (tryFireFirstMatchingEdgeGeneric c ds state ev).2 with
        | true =>
            simp only [hfb, if_true]
            exact ⟨fun h => Bool.noConfusion h, hstep.2⟩
        | false =>
            simp only [hfb, Bool.false_eq_true, if_false]
            have hfired := hstep.1 hfb
            by_cases hr : state = root
            · rw [if_pos hr]
              exact ⟨fun _ => hfired, by rw [hfired]; exact Nat.le_succ _⟩
            · rw [if_neg hr]
              cases hpar : c.parent state with
              | some p =>
                  have hrec := ih p (visited ++ [state])
                    (tryFireFirstMatchingEdgeGeneric c ds state ev).1
                  rw [hfired] at hrec
                  exact hrec
              | none => exact ⟨fun _ => hfired, by rw [hfired]; exact Nat.le_succ _⟩

theorem processLeaves_invariant (c : Chart) (ev root : Nat) :
    ∀ (leaves visited regs : List Nat) (ds : DispState),
      (processLeaves c ev root leaves visited regs ds).2.2.fired.length + regs.length ≤
        ds.fired.length + (processLeaves c ev root leaves visited regs ds).2.1.length ∧
      (∀ x ∈ (processLeaves c ev root leaves visited regs ds).2.1,
        x ∈ regs ∨ x ∈ leaves.map (findParallelRegionRoot c)) ∧
      (regs.Nodup → (processLeaves c ev root leaves visited regs ds).2.1.Nodup) := by
  intro leaves
  induction leaves with
  | nil =>
      intro visited regs ds
      exact ⟨Nat.le_refl _, fun x hx => Or.inl hx, fun h => h⟩
  | cons leaf rest ih =>
      intro visited regs ds
      have hz : processLeaves c ev root (leaf :: rest) visited regs ds =
          if findParallelRegionRoot c leaf ∈ regs then
            processLeaves c ev root rest visited regs ds
          else
            processLeaves c ev root rest
              (tryFireOnBranch c ev root c.bound leaf visited ds).1
              (if (tryFireOnBranch c ev root c.bound leaf visited ds).2.2 then
                regs ++ [findParallelRegionRoot c leaf] else regs)
              (tryFireOnBranch c ev root c.bound leaf visited ds).2.1 := rfl
      rw [hz]
      by_cases hin : findParallelRegionRoot c leaf ∈ regs
      · rw [if_pos hin]
        have hrec := ih visited regs ds
        refine ⟨hrec.1, fun x hx => ?_, hrec.2.2⟩
        rcases hrec.2.1 x hx with h | h
        · exact Or.inl h
        · right
          simp only [List.map_cons, List.mem_cons]
          exact Or.inr h
      · rw [if_neg hin]
        have hbr := tryFireOnBranch_fired_spec c ev root c.bound leaf visited ds
        by_cases hfb : (tryFireOnBranch c ev root c.bound leaf visited ds).2.2 = true
        · rw [if_pos hfb]
          have hrec := ih (tryFireOnBranch c ev root c.bound leaf visited ds).1
            (regs ++ [findParallelRegionRoot c leaf])
            (tryFireOnBranch c ev root c.bound leaf visited ds).2.1
          refine ⟨?_, fun x hx => ?_, fun hnd => ?_⟩
          · have h1 := hrec.1
            have h2 := hbr.2
            simp only [List.length_append, List.length_singleton] at h1
            omega
          · rcases hrec.2.1 x hx with h | h
            · rcases List.mem_append.mp h with h | h
              · exact Or.inl h
              · right
                simp only [List.map_cons, List.mem_cons]
                left
                simpa using h
            · right
              simp only [List.map_cons, List.mem_cons]
              exact Or.inr h
          · apply hrec.2.2
            simp [List.nodup_append, hnd, hin]
        · rw [if_neg hfb]
          have hfb2 : (tryFireOnBranch c ev root c.bound leaf visited ds).2.2 = false := by
            revert hfb
            cases (tryFireOnBranch c ev root c.bound leaf visited ds).2.2 <;> simp
          have heq := hbr.1 hfb2
          have hrec := ih (tryFireOnBranch c ev root c.bound leaf visited ds).1 regs
            (tryFireOnBranch c ev root c.bound leaf visited ds).2.1
          refine ⟨?_, fun x hx => ?_, hrec.2.2⟩
          · have h1 := hrec.1
            rw [heq] at h1
            exact h1
          · rcases hrec.2.1 x hx with h | h
            · exact Or.inl h
            · right
              simp only [List.map_cons, List.mem_cons]
              exact Or.inr h

/-- C3: (per-region bound) processing the active leaves of a root-targeted
event fires at most one transition per parallel region: the number of
`Transition` triggers added is bounded by the number of distinct region
roots among the active leaves; (independence) in the parallel world
`chartPar`, where both region leaves 2 and 3 have matching edges, both
regions fire, one edge each; (no re-evaluation) in `chartShared`, where
only the shared ancestor 1 above the parallel node matches, the first
branch fires at state 1 and the second branch skips the already-visited
states instead of re-evaluating them, so edge 10 fires exactly once. -/
theorem C3_parallel_region_dispatch :
    (∀ (c : Chart) (ev : Nat) (leaves : List Nat) (ds : DispState),
      (processLeaves c ev c.root leaves [] [] ds).2.2.fired.length ≤
        ds.fired.length + ((leaves.map (findParallelRegionRoot c)).dedup).length) ∧
    (edgeEventListenerRoot chartPar [2, 3] dsPar 7).fired = [(2, 10), (3, 11)] ∧
    (edgeEventListenerRoot chartShared [3, 4] dsShared 7).fired = [(1, 10)] := by
  refine ⟨?_, by decide, by decide⟩
  intro c ev leaves ds
  have hinv := processLeaves_invariant c ev c.root leaves [] [] ds
  have hnodup : (processLeaves c ev c.root leaves [] [] ds).2.1.Nodup :=
    hinv.2.2 List.nodup_nil
  have hsub : (processLeaves c ev c.root leaves [] [] ds).2.1 ⊆
      (leaves.map (findParallelRegionRoot c)).dedup := by
    intro x hx
    rcases hinv.2.1 x hx with h | h
    · cases h
    · exact List.mem_dedup.mpr h
  have hlen := (hnodup.subperm hsub).length_le
  have h1 := hinv.1
  omega

end Gearbox
